import Mathlib

/-!
Verification of the gophonetic repository: a shallow embedding, in Lean, of
the Soundex transform (soundex.go) and of the sre2 regular-expression
engine's parser, program assembly and cleanup pass (sre2 parse sources),
together with theorems settling the frozen specification claims.

Conventions of the embedding:
- Go runes / code points are `Int` (the source uses `int` with `-1` as the
  EOF sentinel).
- Go strings that are scanned code point by code point are `List Int`;
  ASCII result strings are `List Char` / `String`.
- Go panics (used by the parser as error control flow, recovered in
  `Parse`) are `Except String`; runtime panics of the Soundex code (index
  out of range, bad slice bounds) are `Option`.
- The mutable parser state (program, reader, flags) is passed explicitly.
-/

/-! ## Soundex (src/soundex.go) -/

/-- The `digits` lookup table of soundex.go: one code per letter A..Z. -/
def digits : List Char := "01230120022455012623010202".toList

/-- Translation of `isAlpha` from soundex.go: `ch <= 'z' && ch >= 'A'`,
i.e. 65..122, which also accepts the non-letters 91..96. -/
def isAlpha (ch : Int) : Bool := ch ≤ 122 && ch ≥ 65

/-- The scanning loop of `Soundex`: walks the uppercased code points,
remembering the first alpha code point `fc` and accumulating the digit
string `sndx`. The Go guard `sndx == "" || d != sndx[len(sndx)-1]`
(append unless the last accumulated digit equals `d`) is rendered as a
test on `getLast?`. The Go expression `digits[c - 'A']` panics (here:
`none`) when `c - 'A'` is not below 26. -/
def soundexScan : List Int → Int → List Char → Option (Int × List Char)
  | [], fc, sndx => some (fc, sndx)
  | c :: rest, fc, sndx =>
    if isAlpha c then
      let fc' := if fc = 0 then c else fc
      match digits.get? (c - 65).toNat with
      | none => none
      | some d =>
        soundexScan rest fc' (if sndx.getLast? = some d then sndx else sndx ++ [d])
    else
      soundexScan rest fc sndx

/-- Go string slicing `s[:n]`: panics (`none`) unless `0 ≤ n ≤ len s`. -/
def goSliceTo (s : List Char) (n : Int) : Option (List Char) :=
  if 0 ≤ n ∧ n ≤ (s.length : Int) then some (s.take n.toNat) else none

/-- The part of `Soundex` after `strings.ToUpper`: the scan, the emptiness
check, replacing the first digit by the first letter, removing the zeros,
and padding/truncating to `length`. -/
def soundexCore (ucps : List Int) (length : Int) : Option String :=
  (soundexScan ucps 0 []).bind fun p =>
    if p.2.length = 0 then some ""
    else
      let sndx1 := Char.ofNat p.1.toNat :: p.2.drop 1
      let sndx2 := sndx1.filter (fun d => d ≠ '0')
      let zeros := List.replicate length.toNat '0'
      (goSliceTo (sndx2 ++ zeros) length).map fun l => String.mk l

/-- Model of Go `strings.ToUpper` on one code point, restricted to the
ASCII simple case mapping. The inputs of all concrete theorems below are
ASCII, where this agrees with Go exactly. -/
def goToUpperChar (c : Int) : Int := if 97 ≤ c ∧ c ≤ 122 then c - 32 else c

/-- The uppercased code-point sequence of an input string. -/
def upperCodes (name : String) : List Int :=
  name.toList.map fun ch => goToUpperChar (ch.toNat : Int)

/-- Translation of `Soundex` from soundex.go. `none` models a runtime
panic of the Go code. -/
def Soundex (name : String) (length : Int) : Option String :=
  soundexCore (upperCodes name) length

/-! ## The sre2 engine: parser, program assembly, cleanup -/

/-- Code point of a character, as a Go rune (`Int`). -/
def ch (c : Char) : Int := (c.toNat : Int)

/-- Code points of a string, as Go runes. -/
def cps (s : String) : List Int := s.toList.map fun c => (c.toNat : Int)

/-- Instruction modes of the sre2 state machine. -/
inductive instrMode
  | iSplit
  | iIndexCap
  | iBoundaryCase
  | iRuneClass
  | iMatch
deriving DecidableEq, Repr

export instrMode (iSplit iIndexCap iBoundaryCase iRuneClass iMatch)

/-- Boundary matcher kinds, for instructions of type iBoundaryCase. -/
inductive boundaryMode
  | bNone
  | bBeginText
  | bBeginLine
  | bEndText
  | bEndLine
  | bWordBoundary
  | bNotWordBoundary
deriving DecidableEq, Repr

export boundaryMode (bNone bBeginText bBeginLine bEndText bEndLine bWordBoundary bNotWordBoundary)

/-- Rune filters (sre2 builds Go closures; here they are the tagged
variants from which those closures are built, so that programs stay
inspectable data). -/
inductive RuneFilter
  | rfNone
  | rfAny
  | rfNotNewline
  | rfRune (c : Int)
  | rfRuneRange (lo hi : Int)
  | rfPosix (name : List Int)
  | rfUnicode (name : List Int)
  | rfPerl (c : Int)
  | rfUnion (fs : List RuneFilter)
  | rfNot (f : RuneFilter)
  | rfIgnoreCase (f : RuneFilter)

/-- A single instruction of a compiled regexp (struct instr of sre2). -/
structure instr where
  idx : Nat
  mode : instrMode
  out : Option Nat
  out1 : Option Nat
  lr : boundaryMode
  rune : RuneFilter
  cid : Int
  cname : List Int

/-- The compiled regexp: instruction list, entry index, capture-pair
count (struct sregexp of sre2). -/
structure sregexp where
  prog : List instr
  start : Int
  caps : Nat

/-- NumSubexps of sre2: the outer pair that matches the whole string is
subtracted. -/
def NumSubexps (r : sregexp) : Int := (r.caps : Int) - 1

/-- Modelled from the spec: the input cursor (`SafeReader`, not under
src/). A position-tracking reader over the pattern's code points with
one-rune lookahead; `pos = -1` before the first `nextCh`, and `curr`
yields the sentinel `-1` outside the string. -/
structure SafeReader where
  s : List Int
  pos : Int
deriving DecidableEq, Repr

def NewSafeReader (src : String) : SafeReader := { s := cps src, pos := -1 }

def SafeReader.curr (r : SafeReader) : Int :=
  if 0 ≤ r.pos ∧ r.pos < (r.s.length : Int) then r.s.getD r.pos.toNat (-1) else -1

def SafeReader.nextCh (r : SafeReader) : Int × SafeReader :=
  let r' : SafeReader := { r with pos := r.pos + 1 }
  (r'.curr, r')

def SafeReader.peek (r : SafeReader) : Int :=
  (SafeReader.mk r.s (r.pos + 1)).curr

/-- Index of the first occurrence of `pat` in `hay`. -/
def findSub : List Int → List Int → Option Nat
  | [], pat => if pat.isPrefixOf ([] : List Int) then some 0 else none
  | h :: t, pat =>
    if pat.isPrefixOf (h :: t) then some 0 else (findSub t pat).map (· + 1)

/-- Modelled from the spec: literal-span extraction between delimiters
(`SafeReader.literal`, not under src/). The cursor must rest on the
opening delimiter; the span up to the nearest closing delimiter is
returned and the cursor moves past the closing delimiter; a missing
delimiter is a parse failure. -/
def SafeReader.literal (r : SafeReader) (b e : List Int) :
    Except String (List Int × SafeReader) :=
  let rest := if 0 ≤ r.pos then r.s.drop r.pos.toNat else r.s
  if b.isPrefixOf rest then
    let body := rest.drop b.length
    match findSub body e with
    | none => .error "unterminated literal"
    | some k =>
      .ok (body.take k, { r with pos := r.pos + (b.length : Int) + (k : Int) + (e.length : Int) })
  else .error "malformed literal"

/-- Modelled from the spec: escape consumption (`SafeReader.consume`,
not under src/): requires the given text at the cursor and steps past
it. -/
def SafeReader.consume (r : SafeReader) (t : List Int) : Except String SafeReader :=
  let rest := if 0 ≤ r.pos then r.s.drop r.pos.toNat else r.s
  if t.isPrefixOf rest then .ok { r with pos := r.pos + (t.length : Int) }
  else .error "consume mismatch"

/-- The ESCAPES map of sre2 (zero default value, as for a Go map). -/
def escMap (c : Int) : Int :=
  if c = ch 'a' then 7
  else if c = ch 't' then 9
  else if c = ch 'n' then 10
  else if c = ch 'v' then 11
  else if c = ch 'f' then 12
  else if c = ch 'r' then 13
  else 0

/-- Modelled from the spec: the posix "punct" table used by
`single_rune` (the engine's class tables are not under src/); ASCII
punctuation code points. -/
def isPunctGo (c : Int) : Bool :=
  (33 ≤ c && c ≤ 47) || (58 ≤ c && c ≤ 64) || (91 ≤ c && c ≤ 96) || (123 ≤ c && c ≤ 126)

/-- Model of Go `unicode.IsDigit` restricted to ASCII digits. -/
def isDigitGo (c : Int) : Bool := 48 ≤ c && c ≤ 57

/-- Model of Go `unicode.ToLower` restricted to the ASCII simple case
mapping. -/
def goToLowerCp (c : Int) : Int := if 65 ≤ c ∧ c ≤ 90 then c + 32 else c

/-- Model of Go `unicode.IsUpper` restricted to ASCII. -/
def isUpperGo (c : Int) : Bool := 65 ≤ c && c ≤ 90

/-- Modelled from the spec: the posix_groups table keys (not under
src/): the POSIX class names resolvable in `[:name:]`. -/
def posixGroupNames : List (List Int) :=
  [cps "alnum", cps "alpha", cps "ascii", cps "blank", cps "cntrl", cps "digit",
   cps "graph", cps "lower", cps "print", cps "punct", cps "space", cps "upper",
   cps "word", cps "xdigit"]

/-- Modelled from the spec: the perl_groups table keys (not under
src/): `d`, `s` and `w`. -/
def perlGroupKeys : List Int := [ch 'd', ch 's', ch 'w']

/-- Modelled from the spec: resolution of a Unicode class name
(`matchUnicodeClass` of sre2/data.go resolves against the Go unicode
tables; a single letter matches any category with that initial). Only
resolvability is modelled. -/
def unicodeClassFound (name : List Int) : Bool :=
  match name with
  | [c] => c = ch 'C' || c = ch 'L' || c = ch 'M' || c = ch 'N' ||
           c = ch 'P' || c = ch 'S' || c = ch 'Z'
  | _ =>
    (["Cc","Cf","Co","Cs","Ll","Lm","Lo","Lt","Lu","Mc","Me","Mn","Nd","Nl","No",
      "Pc","Pd","Pe","Pf","Pi","Po","Ps","Sc","Sk","Sm","So","Zl","Zp","Zs",
      "Latin","Greek","Cyrillic","Han"].map cps).contains name

/-- Value of the decimal digit string, if every code point is a digit
and the string is nonempty. -/
def decDigitsVal (s : List Int) : Option Nat :=
  if s = [] then none
  else
    s.foldl (fun acc c =>
      acc.bind fun v => if isDigitGo c then some (v * 10 + (c - 48).toNat) else none)
      (some 0)

/-- Model of Go `strconv.Atoi` with the error ignored (as the source
does): the parsed value on success, 0 on a syntax error. -/
def goAtoi (s : List Int) : Int :=
  match s with
  | [] => 0
  | c :: rest =>
    if c = ch '+' then (decDigitsVal rest).elim 0 (fun v => (v : Int))
    else if c = ch '-' then (decDigitsVal rest).elim 0 (fun v => -(v : Int))
    else (decDigitsVal s).elim 0 (fun v => (v : Int))

/-- Model of Go `strings.SplitN(raw, ",", 2)`. -/
def goSplitNComma (raw : List Int) : List (List Int) :=
  match findSub raw [ch ','] with
  | none => [raw]
  | some k => [raw.take k, raw.drop (k + 1)]

/-- Digit value in the given base, for `strconv.Btoui64`. -/
def baseDigitVal (base : Nat) (c : Int) : Option Nat :=
  let v : Option Nat :=
    if 48 ≤ c ∧ c ≤ 57 then some (c - 48).toNat
    else if 97 ≤ c ∧ c ≤ 102 then some (c - 87).toNat
    else if 65 ≤ c ∧ c ≤ 70 then some (c - 55).toNat
    else none
  v.bind fun d => if d < base then some d else none

/-- Model of Go `strconv.Btoui64(s, base)`: `none` is the error case. -/
def btoui64 (base : Nat) (s : List Int) : Option Nat :=
  if s = [] then none
  else
    s.foldl (fun acc c =>
      acc.bind fun v => (baseDigitVal base c).map fun d => v * base + d) (some 0)

/-- Go `1 << k` on int64 for a byte shift count: zero once the count
reaches the word width. -/
def goShl1 (k : Nat) : Nat := if k < 64 then 2 ^ k else 0

/-- Transient parser state: regexp under construction, reader, flags
bitset (struct parser of sre2; `flags` is an int64 bitset). -/
structure PState where
  re : sregexp
  src : SafeReader
  flags : Nat

/-- The p.flag test of sre2: bit `flag - 64` of the flags int64. The
guard panic for a flag outside 64..127 is omitted: every call site
passes one of the constants i, m, s, U. -/
def pflag (flags : Nat) (c : Int) : Bool := flags.testBit (c - 64).toNat

/-- The p.instr allocator of sre2: appends a fresh iSplit instruction
(the geometric growth of the Go slice is invisible here). -/
def pinstr (s : PState) : Nat × PState :=
  let pos := s.re.prog.length
  (pos, { s with re := { s.re with
    prog := s.re.prog ++ [⟨pos, iSplit, none, none, bNone, .rfNone, -1, []⟩] } })

/-- Replace the instruction at index `i` (no-op when out of range, which
never occurs: the parser only touches indices it has allocated). -/
def listModify (l : List instr) (i : Nat) (f : instr → instr) : List instr :=
  match l.get? i with
  | some x => l.set i (f x)
  | none => l

def setMode (s : PState) (i : Nat) (m : instrMode) : PState :=
  { s with re := { s.re with prog := listModify s.re.prog i fun x => { x with mode := m } } }

def setRune (s : PState) (i : Nat) (f : RuneFilter) : PState :=
  { s with re := { s.re with prog := listModify s.re.prog i fun x => { x with rune := f } } }

def setLr (s : PState) (i : Nat) (m : boundaryMode) : PState :=
  { s with re := { s.re with prog := listModify s.re.prog i fun x => { x with lr := m } } }

def setCid (s : PState) (i : Nat) (v : Int) : PState :=
  { s with re := { s.re with prog := listModify s.re.prog i fun x => { x with cid := v } } }

def setCname (s : PState) (i : Nat) (v : List Int) : PState :=
  { s with re := { s.re with prog := listModify s.re.prog i fun x => { x with cname := v } } }

def setOutDirect (s : PState) (i : Nat) (v : Option Nat) : PState :=
  { s with re := { s.re with prog := listModify s.re.prog i fun x => { x with out := v } } }

def setOut1Direct (s : PState) (i : Nat) (v : Option Nat) : PState :=
  { s with re := { s.re with prog := listModify s.re.prog i fun x => { x with out1 := v } } }

/-- The p.out connection helper of sre2. -/
def pout (s : PState) (i j : Nat) : Except String PState :=
  match s.re.prog.get? i with
  | none => .error "can't out"
  | some fi =>
    if fi.out = none then .ok (setOutDirect s i (some j))
    else if fi.mode = iSplit ∧ fi.out1 = none then .ok (setOut1Direct s i (some j))
    else .error "can't out"

/-- Advance the reader inside the parser state. -/
def rnext (s : PState) : Int × PState :=
  let (c, r) := s.src.nextCh
  (c, { s with src := r })

/-- The makeBoundaryInstr helper of sre2. -/
def makeBoundaryInstr (s : PState) (mode : boundaryMode) : Nat × PState :=
  let (i, s) := pinstr s
  let s := setMode s i iBoundaryCase
  let s := setLr s i mode
  (i, s)

/-- The octal-digit loop inside single_rune: collect the current code
point, advance, stop after three digits or at the first non-digit. -/
def roctLoop : Nat → SafeReader → List Int → List Int × SafeReader
  | 0, rd, acc => (acc, rd)
  | n + 1, rd, acc =>
    let c := rd.curr
    let acc' := acc ++ [c]
    let c2rd := rd.nextCh
    if isDigitGo c2rd.1 then roctLoop n c2rd.2 acc' else (acc', c2rd.2)

/-- The single_rune parser of sre2: a literal rune, hex escape, named
control escape, escaped punctuation, or octal escape. It moves only the
reader, so it is stated on the reader; the parser threads its state
through it. -/
def single_rune (rd : SafeReader) : Except String (Int × SafeReader) :=
  let r0 := rd.curr
  if r0 ≠ ch '\\' then
    .ok (r0, (rd.nextCh).2)
  else if rd.peek = ch 'x' then
    let rd := (rd.nextCh).2
    let c2rd := rd.nextCh
    let rd := c2rd.2
    if c2rd.1 = ch '{' then do
      let (hex, rd) ← rd.literal (cps "\x7b") (cps "\x7d")
      match btoui64 16 hex with
      | none => .error "couldn't parse hex"
      | some v => .ok ((v : Int), rd)
    else
      let hex := [rd.curr]
      let c3rd := rd.nextCh
      let hex := hex ++ [c3rd.1]
      let rd := (c3rd.2.nextCh).2
      match btoui64 16 hex with
      | none => .error "couldn't parse hex"
      | some v => .ok ((v : Int), rd)
  else if escMap rd.peek ≠ 0 then
    let v := escMap rd.peek
    .ok (v, ((rd.nextCh).2.nextCh).2)
  else if isPunctGo rd.peek then
    let r1rd := rd.nextCh
    .ok (r1rd.1, (r1rd.2.nextCh).2)
  else if isDigitGo rd.peek then
    let rd := (rd.nextCh).2
    let octrd := roctLoop 3 rd []
    match btoui64 8 octrd.1 with
    | none => .error "couldn't parse oct"
    | some v => .ok ((v : Int), octrd.2)
  else .error "not a valid escape sequence"

/-- Exit token of the inline-flag loop inside term. -/
inductive FlagExit
  | colon
  | close
deriving DecidableEq, Repr

/-- The inline-flag loop of term (the `outer:` loop of sre2): consume
flag letters, `-` switches to clearing, `:` or `)` ends the loop. The
unsatisfiable guard `curr < 64 && curr > 127` of the source is kept
verbatim, so no letter is ever rejected; the bit update follows the Go
semantics of `byte(curr - 64)` and of an int64 shift. -/
def flagLoop : Nat → Bool → PState → Except String (FlagExit × PState)
  | 0, _, _ => .error "fuel exhausted"
  | fuel + 1, set, s =>
    let c := s.src.curr
    if c = ch ':' then
      let (_, s) := rnext s
      .ok (.colon, s)
    else if c = ch ')' then
      let (_, s) := rnext s
      .ok (.close, s)
    else if c = ch '-' then
      let (_, s) := rnext s
      flagLoop fuel false s
    else if c < 64 ∧ c > 127 then .error "flag not in range"
    else
      let k := ((c - 64) % 256).toNat
      let s :=
        if set then { s with flags := s.flags ||| goShl1 k }
        else { s with flags := s.flags &&& ((2 ^ 64 - 1) ^^^ goShl1 k) }
      let (_, s) := rnext s
      flagLoop fuel set s

/-- The instruction chain for a `\Q...\E` literal inside term: one
iRuneClass instruction per code point. -/
def qloop (lits : List Int) (endH : Nat) (s : PState) : Except String (Nat × PState) :=
  match lits with
  | [] => .ok (endH, s)
  | r :: rest => do
    let (ni, s) := pinstr s
    let s := setMode s ni iRuneClass
    let s := setRune s ni (.rfRune r)
    let s ← pout s endH ni
    qloop rest ni s

/-- The record of the mutually recursive parser functions of sre2
(class, term, alt, closure, regexp and their loops). The Go functions
recurse without bound; here each level of recursion steps to the
previous stage of `parserAt`, so stage `n` performs recursion of depth
below `n` and errs out beyond it. -/
structure ParserFns where
  classFn : Bool → PState → Except String (RuneFilter × PState)
  classUnionLoop : List RuneFilter → PState → Except String (List RuneFilter × PState)
  term : PState → Except String ((Nat × Nat) × PState)
  termGroupTail : List Int → Bool → Nat → PState → Except String ((Nat × Nat) × PState)
  alt : List Int → Bool → PState → Except String ((Nat × Nat) × PState)
  altLoop : Nat → Nat → PState → Except String (Nat × PState)
  safe_term : SafeReader → Nat → Bool → Nat × Nat → PState →
    Except String ((Bool × (Nat × Nat)) × PState)
  reqLoop : Nat → SafeReader → Nat → Bool → Nat × Nat → Nat → PState →
    Except String ((Bool × (Nat × Nat) × Nat) × PState)
  optLoop : Nat → SafeReader → Nat → Bool → Nat → Bool → Nat × Nat → Nat → PState →
    Except String ((Bool × (Nat × Nat) × Nat) × PState)
  closure : PState → Except String ((Nat × Nat) × PState)
  regexp : PState → Except String ((Nat × Nat) × PState)
  regexpLoop : Nat → PState → Except String (Nat × PState)

/-- The out-of-fuel parser stage: every function fails. -/
def errParser : ParserFns where
  classFn := fun _ _ => .error "fuel exhausted"
  classUnionLoop := fun _ _ => .error "fuel exhausted"
  term := fun _ => .error "fuel exhausted"
  termGroupTail := fun _ _ _ _ => .error "fuel exhausted"
  alt := fun _ _ _ => .error "fuel exhausted"
  altLoop := fun _ _ _ => .error "fuel exhausted"
  safe_term := fun _ _ _ _ _ => .error "fuel exhausted"
  reqLoop := fun _ _ _ _ _ _ _ => .error "fuel exhausted"
  optLoop := fun _ _ _ _ _ _ _ _ _ => .error "fuel exhausted"
  closure := fun _ => .error "fuel exhausted"
  regexp := fun _ => .error "fuel exhausted"
  regexpLoop := fun _ _ => .error "fuel exhausted"

/-- One stage of the parser: the translation of the sre2 parser
functions, with every recursive call going to the previous stage
`prev`. -/
def parserStep (prev : ParserFns) : ParserFns where
  /- The p.class parser of sre2: one character class (dot, bracket
  expression, posix/unicode/perl class, literal or range). -/
  classFn := fun within_class s => do
    let c := s.src.curr
    let (negate, filter?, s) ←
      if c = ch '.' then
        let f : RuneFilter := if pflag s.flags (ch 's') then .rfAny else .rfNotNewline
        let (_, s) := rnext s
        pure ((false, some f, s) : Bool × Option RuneFilter × PState)
      else if c = ch '[' then
        if s.src.peek = ch ':' then do
          let (name, r) ← s.src.literal (cps "[:") (cps ":]")
          let s := { s with src := r }
          let (neg, name) :=
            if name.head? = some (ch '^') then (true, name.drop 1) else (false, name)
          if posixGroupNames.contains name then
            pure ((neg, some (.rfPosix name), s) : Bool × Option RuneFilter × PState)
          else .error "could not identify ascii/posix class"
        else if within_class then .error "can't match a [...] class within another class"
        else
          let (c1, s) := rnext s
          let (neg, s) := if c1 = ch '^' then (true, (rnext s).2) else (false, s)
          do
            let (fs, s) ← prev.classUnionLoop [] s
            let (_, s) := rnext s
            pure ((neg, some (.rfUnion fs), s) : Bool × Option RuneFilter × PState)
      else if c = ch '\\' then
        if s.src.peek = ch 'p' ∨ s.src.peek = ch 'P' then
          let (cpP, s) := rnext s
          let neg := cpP = ch 'P'
          let (cname, s) := rnext s
          if cname = ch '{' then do
            let (name, r) ← s.src.literal (cps "\x7b") (cps "\x7d")
            let s := { s with src := r }
            if unicodeClassFound name then
              pure ((neg, some (.rfUnicode name), s) : Bool × Option RuneFilter × PState)
            else .error "could not identify unicode class"
          else
            let (_, s) := rnext s
            if unicodeClassFound [cname] then
              pure ((neg, some (.rfUnicode [cname]), s) : Bool × Option RuneFilter × PState)
            else .error "could not identify unicode class"
        else if perlGroupKeys.contains (goToLowerCp s.src.peek) then
          let (letterC, s) := rnext s
          let neg := isUpperGo letterC
          let (_, s) := rnext s
          pure ((neg, some (.rfPerl (goToLowerCp letterC)), s) : Bool × Option RuneFilter × PState)
        else pure ((false, none, s) : Bool × Option RuneFilter × PState)
      else pure ((false, none, s) : Bool × Option RuneFilter × PState)
    match filter? with
    | some f => .ok (if negate then .rfNot f else f, s)
    | none => do
      let (r1, rd1) ← single_rune s.src
      let s := { s with src := rd1 }
      if s.src.curr = ch '-' then
        if ¬ within_class then .error "can't match a range outside class"
        else
          let (_, s) := rnext s
          do
            let (rh, rd2) ← single_rune s.src
            let s := { s with src := rd2 }
            if rh < r1 then .error "unexpected range"
            else
              let f : RuneFilter := .rfRuneRange r1 rh
              .ok (if negate then .rfNot f else f, s)
      else
        let f : RuneFilter := .rfRune r1
        .ok (if negate then .rfNot f else f, s)
  /- The union-collecting loop of a bracket expression in p.class. -/
  classUnionLoop := fun acc s =>
    if s.src.curr = ch ']' then .ok (acc, s)
    else do
      let (f, s) ← prev.classFn true s
      prev.classUnionLoop (acc ++ [f]) s
  /- The p.term parser of sre2. -/
  term := fun s =>
    let c := s.src.curr
    if c = -1 then .error "EOF in term"
    else if c = ch '*' ∨ c = ch '+' ∨ c = ch '{' ∨ c = ch '?' then
      .error "unexpected expansion char"
    else if c = ch ')' ∨ c = ch '}' ∨ c = ch ']' then .error "unexpected close element"
    else if c = ch '(' then
      let old_flags := s.flags
      let (c1, s) := rnext s
      if c1 = ch '?' then
        let (_, s) := rnext s
        if s.src.curr = ch 'P' then do
          let (_, s) := rnext s
          let (alt_id, r) ← s.src.literal (cps "<") (cps ">")
          let s := { s with src := r }
          prev.termGroupTail alt_id true old_flags s
        else do
          let (ex, s) ← flagLoop (s.src.s.length + 2) true s
          match ex with
          | .close =>
            let (st, s) := pinstr s
            .ok ((st, st), s)
          | .colon => prev.termGroupTail [] false old_flags s
      else prev.termGroupTail [] true old_flags s
    else if c = ch '$' then
      let (_, s) := rnext s
      let mode := if pflag s.flags (ch 'm') then bEndLine else bEndText
      let (st, s) := makeBoundaryInstr s mode
      .ok ((st, st), s)
    else if c = ch '^' then
      let (_, s) := rnext s
      let mode := if pflag s.flags (ch 'm') then bBeginLine else bBeginText
      let (st, s) := makeBoundaryInstr s mode
      .ok ((st, st), s)
    else if c = ch '\\' ∧ s.src.peek = ch 'Q' then do
      let (lit, r) ← s.src.literal (cps "\\Q") (cps "\\E")
      let s := { s with src := r }
      let (st, s) := pinstr s
      let (e, s) ← qloop lit st s
      .ok ((st, e), s)
    else if c = ch '\\' ∧ s.src.peek = ch 'A' then do
      let r ← s.src.consume (cps "\\A")
      let s := { s with src := r }
      let (st, s) := makeBoundaryInstr s bBeginText
      .ok ((st, st), s)
    else if c = ch '\\' ∧ s.src.peek = ch 'z' then do
      let r ← s.src.consume (cps "\\z")
      let s := { s with src := r }
      let (st, s) := makeBoundaryInstr s bEndText
      .ok ((st, st), s)
    else if c = ch '\\' ∧ s.src.peek = ch 'b' then do
      let r ← s.src.consume (cps "\\b")
      let s := { s with src := r }
      let (st, s) := makeBoundaryInstr s bWordBoundary
      .ok ((st, st), s)
    else if c = ch '\\' ∧ s.src.peek = ch 'B' then do
      let r ← s.src.consume (cps "\\B")
      let s := { s with src := r }
      let (st, s) := makeBoundaryInstr s bNotWordBoundary
      .ok ((st, st), s)
    else do
      let (st, s) := pinstr s
      let s := setMode s st iRuneClass
      let (f, s) ← prev.classFn false s
      let f := if pflag s.flags (ch 'i') then .rfIgnoreCase f else f
      let s := setRune s st f
      .ok ((st, st), s)
  /- The tail of term's group branch: alternation body, closing-bracket
  check, flag restore. -/
  termGroupTail := fun alt_id capture old_flags s => do
    let (pr, s) ← prev.alt alt_id capture s
    if s.src.curr ≠ ch ')' then .error "alt should finish on end bracket"
    else
      let (_, s) := rnext s
      let s := { s with flags := old_flags }
      .ok (pr, s)
  /- The p.alt parser of sre2 (flags restored on return, as by the Go
  defer). -/
  alt := fun cname capture s =>
    let old_flags := s.flags
    let (endI, s) := pinstr s
    let (altBegin, s) := pinstr s
    let s :=
      if capture then
        let s := setMode s altBegin iIndexCap
        let s := setCid s altBegin (2 * (s.re.caps : Int))
        let s := setCname s altBegin cname
        let s := setMode s endI iIndexCap
        let s := setCid s endI (2 * (s.re.caps : Int) + 1)
        let s := setCname s endI cname
        { s with re := { s.re with caps := s.re.caps + 1 } }
      else s
    do
      let ((bs, be), s) ← prev.regexp s
      let s ← pout s be endI
      let (chainHead, s) ← prev.altLoop bs endI s
      if s.src.curr ≠ ch ')' then .error "alt must end with ')'"
      else do
        let s ← pout s altBegin chainHead
        let s := { s with flags := old_flags }
        .ok ((altBegin, endI), s)
  /- The `|` loop of p.alt. -/
  altLoop := fun chainHead endI s =>
    if s.src.curr = ch '|' then do
      let (nsplit, s) := pinstr s
      let s ← pout s nsplit chainHead
      let (_, s) := rnext s
      let ((bs, be), s) ← prev.regexp s
      let s ← pout s nsplit bs
      let s ← pout s be endI
      prev.altLoop nsplit endI s
    else .ok (chainHead, s)
  /- The p.safe_term helper of sre2. -/
  safe_term := fun revert revertAlts first t s =>
    if first then .ok ((false, t), s)
    else do
      let s := { s with src := revert, re := { s.re with caps := revertAlts } }
      let (t', s) ← prev.term s
      .ok ((false, t'), s)
  /- The required-repetitions loop of p.closure. -/
  reqLoop := fun n revert revertAlts first t endH s =>
    if n = 0 then .ok ((first, t, endH), s)
    else do
      let ((first, t), s) ← prev.safe_term revert revertAlts first t s
      let s ← pout s endH t.1
      prev.reqLoop (n - 1) revert revertAlts first t t.2 s
  /- The optional-repetitions loop of p.closure (bounded case). -/
  optLoop := fun n revert revertAlts greedy realEnd first t endH s =>
    if n = 0 then .ok ((first, t, endH), s)
    else do
      let ((first, t), s) ← prev.safe_term revert revertAlts first t s
      let (helper, s) := pinstr s
      let s ← pout s endH helper
      let s :=
        if greedy then setOutDirect s helper (some t.1)
        else setOut1Direct s helper (some t.1)
      let s ← pout s helper realEnd
      let (newEnd, s) := pinstr s
      let s ← pout s t.2 newEnd
      prev.optLoop (n - 1) revert revertAlts greedy realEnd first t newEnd s
  /- The p.closure parser of sre2. -/
  closure := fun s => do
    let revert_alts := s.re.caps
    let revert := s.src
    let (startH, s) := pinstr s
    let ((tS, tE), s) ← prev.term s
    let greedy0 := ! pflag s.flags (ch 'U')
    let c := s.src.curr
    let (quant, s) ←
      if c = ch '?' then
        let (_, s) := rnext s
        pure ((some ((0 : Int), (1 : Int)), s) : Option (Int × Int) × PState)
      else if c = ch '*' then
        let (_, s) := rnext s
        pure ((some ((0 : Int), (-1 : Int)), s) : Option (Int × Int) × PState)
      else if c = ch '+' then
        let (_, s) := rnext s
        pure ((some ((1 : Int), (-1 : Int)), s) : Option (Int × Int) × PState)
      else if c = ch '{' then do
        let (raw, r) ← s.src.literal (cps "\x7b") (cps "\x7d")
        let s := { s with src := r }
        let parts := goSplitNComma raw
        let req := goAtoi (parts.getD 0 [])
        if parts.length = 2 then
          if (parts.getD 1 []).length > 0 then
            let opt := goAtoi (parts.getD 1 []) - req
            if opt < 0 then .error "x must be greater or equal to n"
            else pure ((some (req, opt), s) : Option (Int × Int) × PState)
          else pure ((some (req, (-1 : Int)), s) : Option (Int × Int) × PState)
        else pure ((some (req, (0 : Int)), s) : Option (Int × Int) × PState)
      else pure ((none, s) : Option (Int × Int) × PState)
    match quant with
    | none => .ok ((tS, tE), s)
    | some (req, opt) =>
      let (greedy, s) :=
        if s.src.curr = ch '?' then (! greedy0, (rnext s).2) else (greedy0, s)
      let end_src := s.src
      if req < 0 ∨ opt < -1 ∨ (req = 0 ∧ opt = 0) then
        .error "invalid req/opt combination"
      else do
        let ((first, t, endH), s) ←
          prev.reqLoop req.toNat revert revert_alts true (tS, tE) startH s
        if opt = -1 then do
          let (helper, s) := pinstr s
          let s ← pout s endH helper
          let s :=
            if greedy then setOutDirect s helper (some t.1)
            else setOut1Direct s helper (some t.1)
          let s ← if endH ≠ t.2 then pout s t.2 helper else pure s
          let s := { s with src := end_src }
          .ok ((startH, helper), s)
        else do
          let (realEnd, s) := pinstr s
          let ((_, _, endH), s) ←
            prev.optLoop opt.toNat revert revert_alts greedy realEnd first t endH s
          let s ← pout s endH realEnd
          let s := { s with src := end_src }
          .ok ((startH, realEnd), s)
  /- The p.regexp parser of sre2. -/
  regexp := fun s => do
    let (startH, s) := pinstr s
    let (currH, s) ← prev.regexpLoop startH s
    let (endH, s) := pinstr s
    let s ← pout s currH endH
    .ok ((startH, endH), s)
  /- The closure-chaining loop of p.regexp. -/
  regexpLoop := fun currH s =>
    let c := s.src.curr
    if c = -1 ∨ c = ch '|' ∨ c = ch ')' then .ok (currH, s)
    else do
      let ((cs, ce), s) ← prev.closure s
      let s ← pout s currH cs
      prev.regexpLoop ce s

/-- The fueled tower of parser stages, by primitive recursion (kept as a
bare Nat.rec so that closed applications reduce cheaply). -/
def parserAt : Nat → ParserFns :=
  fun n => Nat.rec errParser (fun _ prevFns => parserStep prevFns) n

/-- The makeDotStarOpt helper of sre2: instructions matching `.*?` with
a lazy split (primary edge leaves the loop, alternate edge consumes any
code point). -/
def makeDotStarOpt (s : PState) : Except String ((Nat × Nat) × PState) := do
  let (begin, s) := pinstr s
  let (final, s) := pinstr s
  let (choice, s) := pinstr s
  let s ← pout s begin choice
  let s ← pout s choice final
  let (rn, s) := pinstr s
  let s := setMode s rn iRuneClass
  let s := setRune s rn .rfAny
  let s ← pout s choice rn
  let s ← pout s rn choice
  .ok ((begin, final), s)

/-- Parser fuel: generous bound in the pattern length; every concrete
pattern of this development parses far below it. -/
def parseFuel (src : String) : Nat := 48 + 4 * src.length

/-- Everything Parse does before the cleanup pass: build the
`.*?( ... ).*?` frame, parse the user pattern between the capture
marks, and check full consumption. -/
def parsePre (src : String) : Except String PState := do
  let s : PState :=
    { re := { prog := [], start := -1, caps := 1 }, src := NewSafeReader src, flags := 0 }
  let ((_, pre), s) ← makeDotStarOpt s
  let s := setMode s pre iIndexCap
  let s := setCid s pre 0
  let ((suf, mtch), s) ← makeDotStarOpt s
  let s := setMode s suf iIndexCap
  let s := setCid s suf 1
  let s := setMode s mtch iMatch
  let (_, s) := rnext s
  let ((reS, reE), s) ← (parserAt (parseFuel src)).regexp s
  if s.src.curr ≠ -1 then .error "could not consume all of regexp!"
  else do
    let s ← pout s pre reS
    let s ← pout s reE suf
    .ok s

/-- The split-recursion detector of cleanup: depth-first walk over
iSplit instructions, cutting an edge that reaches an already-visited
split. Mirrors the closureFn fn of cleanup; the fuel is an upper bound on
the recursion depth (each level inserts a fresh index into states). -/
def cleanupFn : Nat → List instr → List Nat → Option Nat →
    Bool × List instr × List Nat
  | 0, prog, states, _ => (false, prog, states)
  | fuel + 1, prog, states, edge =>
    match edge with
    | none => (false, prog, states)
    | some t =>
      match prog.get? t with
      | none => (false, prog, states)
      | some ti =>
        if ti.mode = iSplit then
          if t ∈ states then (true, prog, states)
          else
            let states := t :: states
            let r1 := cleanupFn fuel prog states ti.out
            let prog := if r1.1 then listModify r1.2.1 t (fun x => { x with out := none })
                        else r1.2.1
            let out1v := ((prog.get? t).map instr.out1).getD none
            let r2 := cleanupFn fuel prog r1.2.2 out1v
            let prog := if r2.1 then listModify r2.2.1 t (fun x => { x with out1 := none })
                        else r2.2.1
            (false, prog, r2.2.2)
        else (false, prog, states)

/-- Phase 1 of cleanup: run the split-recursion detector from every
instruction except the entry. -/
def cleanupPhase1 (prog : List instr) : List instr :=
  (List.range prog.length).foldl
    (fun acc i => if i = 0 then acc else (cleanupFn (acc.length + 2) acc [] (some i)).2.1)
    prog

/-- Rewire every edge that points to the removed instruction `i` to its
bypass target. -/
def rewireStep (work : List (Option instr)) (i : Nat) (bypass : Option Nat) :
    List (Option instr) :=
  work.map fun slot => slot.map fun pj =>
    let pj := if pj.out = some i then { pj with out := bypass } else pj
    if pj.out1 = some i then { pj with out1 := bypass } else pj

/-- Phase 2 of cleanup: remove single-destination splits (never the
entry instruction), rewiring incoming edges to the bypass target. -/
def cleanupPhase2 (work : List (Option instr)) : List (Option instr) :=
  (List.range work.length).foldl
    (fun w i =>
      if i = 0 then w
      else
        match w.getD i none with
        | some pi =>
          if pi.mode = iSplit ∧ (pi.out1 = none ∨ pi.out = pi.out1) then
            (rewireStep w i pi.out).set i none
          else w
        | none => w)
    work

/-- Phase 3 of cleanup: compact away the holes, renumbering indices and
following every edge to the survivor's new position (the Go code moves
pointers, so surviving edges follow automatically; an edge left dangling
at a removed object is modelled as absent). -/
def cleanupPhase3 (work : List (Option instr)) : List instr :=
  let survivors := work.enum.filterMap fun p => p.2.map fun x => (p.1, x)
  let olds := survivors.map Prod.fst
  survivors.enum.map fun q =>
    { q.2.2 with
      idx := q.1
      out := q.2.2.out.bind fun t => olds.indexOf? t
      out1 := q.2.2.out1.bind fun t => olds.indexOf? t }

/-- The cleanup pass of sre2. -/
def cleanup (prog : List instr) : List instr :=
  cleanupPhase3 (cleanupPhase2 ((cleanupPhase1 prog).map some))

/-- The Parse entry point of sre2: build and clean the program, set the
start index from the entry's single outgoing edge, and wrap any parse
panic in the error message of the recover handler. -/
def Parse (src : String) : Except String sregexp :=
  match parsePre src with
  | .error e => .error ("could not parse `" ++ src ++ "`, error: " ++ e)
  | .ok s =>
    let prog := cleanup s.re.prog
    match prog.get? 0 with
    | none => .error "runtime error"
    | some i0 =>
      if i0.out1 = none then
        match i0.out with
        | some k => .ok { prog := prog, start := (k : Int), caps := s.re.caps }
        | none => .error "runtime error"
      else .ok { prog := prog, start := -1, caps := s.re.caps }


/-- Reader skeleton of the inline-flag loop, for the capture counter:
consumes the same code points as flagLoop without touching flag state. -/
def cflagLoop : Nat → SafeReader → Except String (FlagExit × SafeReader)
  | 0, _ => .error "fuel exhausted"
  | fuel + 1, rd =>
    let c := rd.curr
    if c = ch ':' then .ok (.colon, (rd.nextCh).2)
    else if c = ch ')' then .ok (.close, (rd.nextCh).2)
    else if c = ch '-' then cflagLoop fuel (rd.nextCh).2
    else if c < 64 ∧ c > 127 then .error "flag not in range"
    else cflagLoop fuel (rd.nextCh).2

/-- Modelled from the spec: "the number of capturing groups written in
the pattern". These functions walk the pattern with exactly the lexical
structure of the parser (escapes, classes, literal spans, and group
syntax move the reader identically) and count one for every capturing
group: a plain `(...)` or a named `(?P<name>...)`; non-capturing
`(?flags:...)` and flag-only `(?flags)` groups count zero, and `(` code
points inside classes, escapes or `\Q...\E` spans are not groups. -/
structure CounterFns where
  classFn : Bool → SafeReader → Except String SafeReader
  classUnionLoop : SafeReader → Except String SafeReader
  term : SafeReader → Except String (Nat × SafeReader)
  termGroupTail : Bool → SafeReader → Except String (Nat × SafeReader)
  alt : Bool → SafeReader → Except String (Nat × SafeReader)
  altLoop : SafeReader → Except String (Nat × SafeReader)
  closure : SafeReader → Except String (Nat × SafeReader)
  regexp : SafeReader → Except String (Nat × SafeReader)
  regexpLoop : SafeReader → Except String (Nat × SafeReader)

/-- The out-of-fuel counter stage. -/
def errCounter : CounterFns where
  classFn := fun _ _ => .error "fuel exhausted"
  classUnionLoop := fun _ => .error "fuel exhausted"
  term := fun _ => .error "fuel exhausted"
  termGroupTail := fun _ _ => .error "fuel exhausted"
  alt := fun _ _ => .error "fuel exhausted"
  altLoop := fun _ => .error "fuel exhausted"
  closure := fun _ => .error "fuel exhausted"
  regexp := fun _ => .error "fuel exhausted"
  regexpLoop := fun _ => .error "fuel exhausted"

/-- One stage of the capture counter: the reader skeleton of the parser
stage, counting capturing groups. -/
def counterStep (prev : CounterFns) : CounterFns where
  classFn := fun within_class rd =>
    let c := rd.curr
    if c = ch '.' then .ok (rd.nextCh).2
    else if c = ch '[' then
      if rd.peek = ch ':' then do
        let (_, rd) ← rd.literal (cps "[:") (cps ":]")
        .ok rd
      else do
        let c1rd := rd.nextCh
        let rd := if c1rd.1 = ch '^' then (c1rd.2.nextCh).2 else c1rd.2
        let rd ← prev.classUnionLoop rd
        .ok (rd.nextCh).2
    else if c = ch '\\' ∧ (rd.peek = ch 'p' ∨ rd.peek = ch 'P') then
      let rd := (rd.nextCh).2
      let cnrd := rd.nextCh
      if cnrd.1 = ch '{' then do
        let (_, rd) ← cnrd.2.literal (cps "\x7b") (cps "\x7d")
        .ok rd
      else .ok (cnrd.2.nextCh).2
    else if c = ch '\\' ∧ perlGroupKeys.contains (goToLowerCp rd.peek) then
      .ok (((rd.nextCh).2).nextCh).2
    else do
      let (r1, rd) ← single_rune rd
      if rd.curr = ch '-' then do
        let rd := (rd.nextCh).2
        let (_, rd) ← single_rune rd
        .ok rd
      else .ok rd
  classUnionLoop := fun rd =>
    if rd.curr = ch ']' then .ok rd
    else do
      let rd ← prev.classFn true rd
      prev.classUnionLoop rd
  term := fun rd =>
    let c := rd.curr
    if c = ch '(' then
      let rd1 := (rd.nextCh).2
      if rd1.curr = ch '?' then
        let rd2 := (rd1.nextCh).2
        if rd2.curr = ch 'P' then do
          let rd3 := (rd2.nextCh).2
          let (_, rd4) ← rd3.literal (cps "<") (cps ">")
          prev.termGroupTail true rd4
        else do
          let (ex, rd3) ← cflagLoop (rd2.s.length + 2) rd2
          match ex with
          | .close => .ok (0, rd3)
          | .colon => prev.termGroupTail false rd3
      else prev.termGroupTail true rd1
    else if c = ch '$' ∨ c = ch '^' then .ok (0, (rd.nextCh).2)
    else if c = ch '\\' ∧ rd.peek = ch 'Q' then do
      let (_, rd) ← rd.literal (cps "\\Q") (cps "\\E")
      .ok (0, rd)
    else if c = ch '\\' ∧ (rd.peek = ch 'A' ∨ rd.peek = ch 'z' ∨ rd.peek = ch 'b' ∨
        rd.peek = ch 'B') then
      .ok (0, ((rd.nextCh).2.nextCh).2)
    else do
      let rd ← prev.classFn false rd
      .ok (0, rd)
  termGroupTail := fun capture rd => do
    let (c, rd) ← prev.alt capture rd
    .ok (c, (rd.nextCh).2)
  alt := fun capture rd => do
    let (c1, rd) ← prev.regexp rd
    let (c2, rd) ← prev.altLoop rd
    .ok ((if capture then 1 else 0) + c1 + c2, rd)
  altLoop := fun rd =>
    if rd.curr = ch '|' then do
      let rd := (rd.nextCh).2
      let (c1, rd) ← prev.regexp rd
      let (c2, rd) ← prev.altLoop rd
      .ok (c1 + c2, rd)
    else .ok (0, rd)
  closure := fun rd => do
    let (c, rd) ← prev.term rd
    let cc := rd.curr
    if cc = ch '?' ∨ cc = ch '*' ∨ cc = ch '+' then
      let rd := (rd.nextCh).2
      let rd := if rd.curr = ch '?' then (rd.nextCh).2 else rd
      .ok (c, rd)
    else if cc = ch '{' then do
      let (_, rd) ← rd.literal (cps "\x7b") (cps "\x7d")
      let rd := if rd.curr = ch '?' then (rd.nextCh).2 else rd
      .ok (c, rd)
    else .ok (c, rd)
  regexp := fun rd => prev.regexpLoop rd
  regexpLoop := fun rd =>
    if rd.curr = -1 ∨ rd.curr = ch '|' ∨ rd.curr = ch ')' then .ok (0, rd)
    else do
      let (c1, rd) ← prev.closure rd
      let (c2, rd) ← prev.regexpLoop rd
      .ok (c1 + c2, rd)

/-- The fueled tower of counter stages. -/
def counterAt : Nat → CounterFns :=
  fun n => Nat.rec errCounter (fun _ prevFns => counterStep prevFns) n

/-- Modelled from the spec: the number of capturing groups written in a
pattern, counted over the whole pattern the way Parse consumes it. -/
def specCapturingGroups (p : String) : Except String (Nat × SafeReader) :=
  (counterAt (parseFuel p)).regexp ((NewSafeReader p).nextCh).2

/-- Edge bound: an edge, if present, targets an index at least `b`. -/
def edgeGe (b : Nat) (e : Option Nat) : Prop := ∀ t, e = some t → b ≤ t

/-- Program extension invariant of one parser call, relative to a base
`b` below the call's working region: the program only grows, the slots
below `b` are untouched, and every slot at or above `b` either keeps an
edge it already had or points at or above `b`. -/
def progExt (b : Nat) (p q : List instr) : Prop :=
  p.length ≤ q.length ∧
  (∀ i, i < b → q.get? i = p.get? i) ∧
  (∀ i x, b ≤ i → q.get? i = some x →
    (edgeGe b x.out ∨ ∃ y, p.get? i = some y ∧ x.out = y.out) ∧
    (edgeGe b x.out1 ∨ ∃ y, p.get? i = some y ∧ x.out1 = y.out1))

/-- The split-liveness post-condition claimed for the cleanup pass:
every iSplit has at least one live destination and, when it has two,
they are distinct. -/
def splitsLive (prog : List instr) : Bool :=
  prog.all fun x =>
    x.mode ≠ iSplit ||
    ((x.out.isSome || x.out1.isSome) &&
     (match x.out, x.out1 with
      | some a, some b => a ≠ b
      | _, _ => true))

/-- Fueled reachability closure over a program's out/out1 edges,
starting from the given worklist of indices. -/
def reachClosure (prog : List instr) : Nat → List Nat → List Nat
  | 0, acc => acc
  | fuel + 1, acc =>
    let nxt := acc.foldl (fun ns i =>
      match prog.get? i with
      | none => ns
      | some x =>
        let ns := match x.out with
          | some t => if t ∈ acc ∨ t ∈ ns then ns else t :: ns
          | none => ns
        match x.out1 with
          | some t => if t ∈ acc ∨ t ∈ ns then ns else t :: ns
          | none => ns) []
    if nxt = [] then acc else reachClosure prog fuel (nxt ++ acc)

/-- The reachability post-condition claimed for the cleanup pass: every
instruction of the program is reachable from the entry instruction at
index 0 by following out/out1 edges. -/
def allReachable (prog : List instr) : Bool :=
  (List.range prog.length).all
    (fun i => i ∈ reachClosure prog (prog.length + 1) [0])

/-! ## Theorems -/

set_option maxRecDepth 1000000

theorem digits_length : digits.length = 26 := by decide

theorem soundexScan_none_of_bracket (u : List Int) (hc : ∃ c ∈ u, 91 ≤ c ∧ c ≤ 96) :
    ∀ fc sndx, soundexScan u fc sndx = none := by
  induction u with
  | nil => simp at hc
  | cons a t ih =>
    intro fc sndx
    rcases hc with ⟨c, hm, h1, h2⟩
    rcases List.mem_cons.mp hm with rfl | hmem
    · have ha : isAlpha c = true := by
        simp only [isAlpha, Bool.and_eq_true, decide_eq_true_eq, ge_iff_le]
        omega
      have hidx : digits.get? (c - 65).toNat = none := by
        rw [List.get?_eq_none, digits_length]
        omega
      simp only [soundexScan, ha, if_true, hidx]
    · by_cases ha : isAlpha a
      · simp only [soundexScan, ha, if_true]
        cases hget : digits.get? (a - 65).toNat with
        | none => rfl
        | some d => exact ih ⟨c, hmem, h1, h2⟩ _ _
      · simp only [soundexScan, ha, if_false]
        exact ih ⟨c, hmem, h1, h2⟩ _ _

theorem soundexScan_length_mono (u : List Int) :
    ∀ fc sndx fc' sndx', soundexScan u fc sndx = some (fc', sndx') →
      sndx.length ≤ sndx'.length := by
  induction u with
  | nil =>
    intro fc sndx fc' sndx' h
    simp only [soundexScan, Option.some.injEq, Prod.mk.injEq] at h
    rw [h.2]
  | cons a t ih =>
    intro fc sndx fc' sndx' h
    by_cases ha : isAlpha a
    · simp only [soundexScan, ha, if_true] at h
      cases hget : digits.get? (a - 65).toNat with
      | none => rw [hget] at h; exact absurd h (by simp)
      | some d =>
        rw [hget] at h
        have h2 := ih _ _ _ _ h
        by_cases hl : sndx.getLast? = some d
        · rw [if_pos hl] at h2; exact h2
        · rw [if_neg hl] at h2; simp at h2; omega
    · simp only [soundexScan, ha, if_false] at h
      exact ih _ _ _ _ h

theorem soundexScan_ne_nil (u : List Int) (hc : ∃ c ∈ u, isAlpha c = true) :
    ∀ fc sndx fc' sndx', soundexScan u fc sndx = some (fc', sndx') →
      sndx' ≠ [] := by
  induction u with
  | nil => simp at hc
  | cons a t ih =>
    intro fc sndx fc' sndx' h
    by_cases ha : isAlpha a
    · simp only [soundexScan, ha, if_true] at h
      cases hget : digits.get? (a - 65).toNat with
      | none => rw [hget] at h; exact absurd h (by simp)
      | some d =>
        rw [hget] at h
        have hmono := soundexScan_length_mono t _ _ _ _ h
        intro hcontra
        subst hcontra
        simp only [List.length_nil, Nat.le_zero, List.length_eq_zero] at hmono
        by_cases hl : sndx.getLast? = some d
        · rw [if_pos hl] at hmono; subst hmono; simp at hl
        · rw [if_neg hl] at hmono; simp at hmono
    · rcases hc with ⟨c, hm, hca⟩
      rcases List.mem_cons.mp hm with rfl | hmem
      · exact absurd hca (by simp [ha])
      · simp only [soundexScan, ha, if_false] at h
        exact ih ⟨c, hmem, hca⟩ _ _ _ _ h

theorem soundexScan_no_alpha (u : List Int) (hc : ∀ c ∈ u, isAlpha c = false) :
    ∀ fc sndx, soundexScan u fc sndx = some (fc, sndx) := by
  induction u with
  | nil => intro fc sndx; rfl
  | cons a t ih =>
    intro fc sndx
    have ha := hc a (List.mem_cons_self a t)
    simp only [soundexScan, ha, if_false]
    exact ih (fun c hm => hc c (List.mem_cons_of_mem _ hm)) fc sndx

/-- C9: Soundex is not total. The `isAlpha` guard accepts the whole range
65..122, including the six non-letters 91..96; whenever the uppercased
input contains such a code point, the lookup `digits[c - 'A']` indexes
past the 26-entry table and the call panics (modelled as `none`) instead
of returning a code. -/
theorem soundex_panics_on_bracket_range (name : String) (length : Int)
    (h : ∃ c ∈ upperCodes name, 91 ≤ c ∧ c ≤ 96) :
    (∀ c : Int, 91 ≤ c → c ≤ 96 → isAlpha c = true) ∧ Soundex name length = none := by
  constructor
  · intro c h1 h2
    simp only [isAlpha, Bool.and_eq_true, decide_eq_true_eq, ge_iff_le]
    omega
  · unfold Soundex soundexCore
    rw [soundexScan_none_of_bracket _ h]
    rfl

theorem soundex_panics_on_bracket_range_witness :
    (∃ c ∈ upperCodes "_", 91 ≤ c ∧ c ≤ 96) ∧ Soundex "_" 5 = none :=
  ⟨by decide, (soundex_panics_on_bracket_range "_" 5 (by decide)).2⟩

/-- C10: for every input and every requested length at least 0, if the
uppercased name contains no code point in the range 65..122 then Soundex
returns the empty string regardless of the requested length; otherwise,
whenever the call returns without panicking, the result has exactly
`length` characters and consists of a zero-free core right-padded with
'0' characters. -/
theorem soundex_empty_or_exact_length (name : String) (length : Int) (h0 : 0 ≤ length) :
    ((∀ c ∈ upperCodes name, ¬ (65 ≤ c ∧ c ≤ 122)) → Soundex name length = some "") ∧
    (∀ r, (∃ c ∈ upperCodes name, 65 ≤ c ∧ c ≤ 122) → Soundex name length = some r →
      r.length = length.toNat ∧
      ∃ core k, r.toList = core ++ List.replicate k '0' ∧ '0' ∉ core) := by
  constructor
  · intro hno
    have hno' : ∀ c ∈ upperCodes name, isAlpha c = false := by
      intro c hm
      have h2 := hno c hm
      by_cases h65 : 65 ≤ c
      · have h122 : ¬ c ≤ 122 := fun hle => h2 ⟨h65, hle⟩
        simp [isAlpha, h122]
      · simp [isAlpha]
        intro hle
        omega
    unfold Soundex soundexCore
    rw [soundexScan_no_alpha _ hno']
    rfl
  · intro r hex hr
    have hex' : ∃ c ∈ upperCodes name, isAlpha c = true := by
      rcases hex with ⟨c, hm, h1, h2⟩
      exact ⟨c, hm, by simp only [isAlpha, Bool.and_eq_true, decide_eq_true_eq, ge_iff_le]; omega⟩
    unfold Soundex soundexCore at hr
    cases hscan : soundexScan (upperCodes name) 0 [] with
    | none => rw [hscan] at hr; exact absurd hr (by simp)
    | some p =>
      obtain ⟨fc, sndx⟩ := p
      rw [hscan] at hr
      simp only [Option.some_bind] at hr
      have hne : sndx ≠ [] := soundexScan_ne_nil _ hex' _ _ _ _ hscan
      rw [if_neg (by simpa using hne)] at hr
      set sndx2 := (Char.ofNat fc.toNat :: sndx.drop 1).filter (fun d => d ≠ '0') with hsndx2
      have hslice : goSliceTo (sndx2 ++ List.replicate length.toNat '0') length
          = some ((sndx2 ++ List.replicate length.toNat '0').take length.toNat) := by
        unfold goSliceTo
        rw [if_pos]
        constructor
        · exact h0
        · rw [List.length_append, List.length_replicate]
          omega
      rw [hslice] at hr
      simp only [Option.map_some', Option.some.injEq] at hr
      subst hr
      constructor
      · show (String.mk _).length = length.toNat
        simp only [String.length]
        rw [List.take_append_eq_append_take, List.take_replicate]
        rw [List.length_append, List.length_take, List.length_replicate]
        omega
      · refine ⟨sndx2.take length.toNat, min (length.toNat - sndx2.length) length.toNat, ?_, ?_⟩
        · show (String.mk _).data = _
          simp only
          rw [List.take_append_eq_append_take, List.take_replicate]
        · intro hmem
          have hsub := List.take_subset length.toNat sndx2 hmem
          rw [hsndx2] at hsub
          simp at hsub

theorem soundex_empty_or_exact_length_witness :
    Soundex "robin" 5 = some "R1500" ∧
    ("R1500").length = (5:Int).toNat ∧
    ∃ core k, ("R1500").toList = core ++ List.replicate k '0' ∧ '0' ∉ core :=
  ⟨by decide,
   (soundex_empty_or_exact_length "robin" 5 (by decide)).2 "R1500" (by decide) (by decide)⟩

/-- Advancing the reader does not change the regexp under construction
or the flags. -/
theorem rnext_re (s : PState) : (rnext s).2.re = s.re := rfl

/-- The flag loop only moves the reader and updates the flag bitset: the
regexp under construction is untouched. -/
theorem flagLoop_re : ∀ fuel set s e s1, flagLoop fuel set s = .ok (e, s1) → s1.re = s.re := by
  intro fuel
  induction fuel with
  | zero => intro set s e s1 h; simp [flagLoop] at h
  | succ n ih =>
    intro set s e s1 h
    simp only [flagLoop] at h
    split at h
    · simp only [Except.ok.injEq, Prod.mk.injEq] at h
      rw [← h.2]
      exact rnext_re s
    · split at h
      · simp only [Except.ok.injEq, Prod.mk.injEq] at h
        rw [← h.2]
        exact rnext_re s
      · split at h
        · exact (ih false (rnext s).2 e s1 h).trans (rnext_re s)
        · split at h
          · exact absurd h (by simp)
          · split at h
            · exact (ih set _ e s1 h).trans rfl
            · exact (ih set _ e s1 h).trans rfl

theorem indexOf?_lt_length {l : List Nat} {a : Nat} :
    ∀ {i : Nat}, l.indexOf? a = some i → i < l.length := by
  induction l with
  | nil => intro i h; simp at h
  | cons b t ih =>
    intro i h
    rw [List.indexOf?_cons] at h
    by_cases hb : (b == a)
    · rw [if_pos hb] at h
      simp only [Option.some.injEq] at h
      simp [← h]
    · rw [if_neg hb] at h
      cases hm : t.indexOf? a with
      | none => rw [hm] at h; simp at h
      | some k =>
        rw [hm] at h
        simp only [Option.map_some', Option.some.injEq] at h
        have hk := ih hm
        simp only [List.length_cons]
        omega

theorem cleanupPhase3_length (work : List (Option instr)) :
    (cleanupPhase3 work).length =
      (work.enum.filterMap fun p => p.2.map fun x => (p.1, x)).length := by
  unfold cleanupPhase3
  simp

theorem cleanupPhase3_idx (work : List (Option instr)) (j : Nat) (x : instr)
    (h : (cleanupPhase3 work).get? j = some x) : x.idx = j := by
  unfold cleanupPhase3 at h
  rw [List.get?_map, List.get?_enum] at h
  cases hq : (work.enum.filterMap fun p => p.2.map fun x => (p.1, x)).get? j with
  | none => rw [hq] at h; simp at h
  | some q =>
    rw [hq] at h
    simp only [Option.map_some', Option.some.injEq] at h
    rw [← h]

theorem listModify_length (p : List instr) (i : Nat) (f : instr → instr) :
    (listModify p i f).length = p.length := by
  unfold listModify
  cases p.get? i <;> simp

theorem cleanupFn_length : ∀ fuel prog states edge,
    ((cleanupFn fuel prog states edge).2.1).length = prog.length := by
  intro fuel
  induction fuel with
  | zero => intro prog states edge; rfl
  | succ n ih =>
    intro prog states edge
    simp only [cleanupFn]
    split
    · rfl
    · split
      · rfl
      · split
        · split
          · rfl
          · simp only
            split <;> split <;> simp [listModify_length, ih]
        · rfl

theorem cleanupPhase1_length (prog : List instr) :
    (cleanupPhase1 prog).length = prog.length := by
  unfold cleanupPhase1
  have h := List.foldlRecOn (List.range prog.length)
    (fun acc i => if i = 0 then acc else (cleanupFn (acc.length + 2) acc [] (some i)).2.1)
    prog (motive := fun acc => acc.length = prog.length) rfl
    (fun acc hacc i _ => by
      by_cases hi : i = 0
      · simpa [hi] using hacc
      · simp only [hi, if_false]
        rw [cleanupFn_length]
        exact hacc)
  exact h

theorem rewireStep_length (work : List (Option instr)) (i : Nat) (b : Option Nat) :
    (rewireStep work i b).length = work.length := by
  unfold rewireStep
  simp

theorem cleanupPhase2_inv (work : List (Option instr))
    (h0 : ∃ x, work.get? 0 = some (some x)) :
    (cleanupPhase2 work).length = work.length ∧
    (∃ x, (cleanupPhase2 work).get? 0 = some (some x)) := by
  unfold cleanupPhase2
  refine List.foldlRecOn (List.range work.length) _ work
    (motive := fun w => w.length = work.length ∧ ∃ x, w.get? 0 = some (some x)) ⟨rfl, h0⟩ ?_
  intro w hw i _
  by_cases hi : i = 0
  · simpa [hi] using hw
  · simp only [hi, if_false]
    split
    · split
      · obtain ⟨hlen, x, hx⟩ := hw
        refine ⟨?_, ?_⟩
        · rw [List.length_set, rewireStep_length, hlen]
        · rw [List.get?_set_ne _ _ (by omega)]
          unfold rewireStep
          rw [List.get?_map, hx]
          exact ⟨_, rfl⟩
      · exact hw
    · exact hw

theorem cleanupPhase3_edges (work : List (Option instr)) (x : instr)
    (hx : x ∈ cleanupPhase3 work) :
    (∀ t ∈ x.out, t < (cleanupPhase3 work).length) ∧
    (∀ t ∈ x.out1, t < (cleanupPhase3 work).length) := by
  rw [cleanupPhase3_length]
  unfold cleanupPhase3 at hx
  rw [List.mem_map] at hx
  obtain ⟨q, hq, rfl⟩ := hx
  constructor <;> intro t ht <;>
    simp only [Option.mem_def, Option.bind_eq_some] at ht <;>
    obtain ⟨t0, _, hidx⟩ := ht <;>
    simpa using indexOf?_lt_length hidx

theorem cleanup_length_pos (prog : List instr) (hne : prog ≠ []) :
    0 < (cleanup prog).length := by
  unfold cleanup
  have h1len : (cleanupPhase1 prog).length = prog.length := cleanupPhase1_length prog
  have hwork : ∃ x, ((cleanupPhase1 prog).map some).get? 0 = some (some x) := by
    cases hp : cleanupPhase1 prog with
    | nil => rw [hp] at h1len; simp at h1len; exact absurd (List.length_eq_zero.mp h1len.symm) hne
    | cons a l => exact ⟨a, by simp [hp]⟩
  obtain ⟨hlen2, x, hx⟩ := cleanupPhase2_inv ((cleanupPhase1 prog).map some) hwork
  rw [cleanupPhase3_length]
  cases hp2 : cleanupPhase2 ((cleanupPhase1 prog).map some) with
  | nil => rw [hp2] at hx; simp at hx
  | cons a l =>
    rw [hp2] at hx
    simp only [List.get?_cons_zero, Option.some.injEq] at hx
    subst hx
    simp [List.enum_cons, List.filterMap_cons]

/-- C7 (amended): cleanup's provable structural post-condition. The
entry instruction is never removed (the result is nonempty), indices are
densely renumbered so that every remaining instruction's recorded index
equals its position, and every remaining edge targets an instruction
still in the program. The split-liveness half of the claimed
post-condition is refuted by the counterexample below. -/
theorem cleanup_dense_postcondition (prog : List instr) (hne : prog ≠ []) :
    0 < (cleanup prog).length ∧
    (∀ j x, (cleanup prog).get? j = some x → x.idx = j) ∧
    (∀ x ∈ cleanup prog, (∀ t ∈ x.out, t < (cleanup prog).length) ∧
      (∀ t ∈ x.out1, t < (cleanup prog).length)) := by
  refine ⟨cleanup_length_pos prog hne, ?_, ?_⟩
  · intro j x h
    exact cleanupPhase3_idx _ j x h
  · intro x hx
    exact cleanupPhase3_edges _ x hx

theorem cleanup_dense_postcondition_witness :
    0 < (cleanup [⟨0, iMatch, none, none, bNone, .rfNone, -1, []⟩]).length :=
  (cleanup_dense_postcondition [⟨0, iMatch, none, none, bNone, .rfNone, -1, []⟩]
    (by simp)).1

/-- C7 (counterexample): both halves of the claimed cleanup
post-condition fail. The pattern `(?:|)*` is accepted by Parse, yet its
final compiled program contains an iSplit instruction with no live
destination at all (both edges absent), refuting the claimed
split-liveness; and the pattern `(?:(?:a)+)*` is accepted, yet its final
compiled program contains instructions that are unreachable from the
entry instruction (the inner rune and its loop split survive as an
orphaned island: phase 1 cuts a split back-edge, and phase 2's bypass of
the resulting dead split rewires the island's only inbound edge to nil),
refuting the claimed reachability. -/
theorem cleanup_split_liveness_counterexample :
    ((Parse "(?:|)*").isOk = true ∧
     ((Parse "(?:|)*").map fun re => splitsLive re.prog) = .ok false) ∧
    ((Parse "(?:(?:a)+)*").isOk = true ∧
     ((Parse "(?:(?:a)+)*").map fun re => allReachable re.prog) = .ok false) :=
  ⟨⟨rfl, rfl⟩, ⟨rfl, rfl⟩⟩

/-- C5: the claim says a flag letter outside the 64..127 code range is
rejected; the guard of the source is `curr < 64 && curr > 127`, which is
unsatisfiable, so the out-of-range flag letter '0' (code point 48) in
`(?0:a)` is silently accepted: the parse succeeds, and the bogus flag
bit update is a no-op, so the compiled program is the one of `(?:a)`. -/
theorem flag_out_of_range_accepted :
    (Parse "(?0:a)").isOk = true ∧ Parse "(?0:a)" = Parse "(?:a)" ∧
    ∀ c : Int, ¬ (c < 64 ∧ c > 127) :=
  ⟨rfl, rfl, fun _ h => by omega⟩

/-- C6: `strconv.Atoi` errors are discarded in the `{n,m}` quantifier
parser, so a malformed lower bound parses as 0 instead of raising
InvalidRepetitionRange: `a{x,3}` is accepted and compiles to the same
program as `a{0,3}`. The `m < n` half of the claim does hold, with its
own error message, as the last conjunct shows. -/
theorem malformed_repetition_accepted :
    (Parse "a{x,3}").isOk = true ∧ Parse "a{x,3}" = Parse "a{0,3}" ∧
    goAtoi (cps "x") = 0 ∧
    Parse "a{3,2}" =
      .error "could not parse `a{3,2}`, error: x must be greater or equal to n" :=
  ⟨rfl, rfl, rfl, rfl⟩

/-- C8: Parse either returns a compiled matcher or an error, never both
(the Go recover handler clears the matcher on every failure, so failure
carries no usable matcher, modelled by the Except sum); and the
malformed pattern `a(b` yields the unclosed-group error of the alt
parser. -/
theorem parse_error_xor_matcher :
    (∀ src : String, (∃ re, Parse src = Except.ok re) ∨ (∃ e, Parse src = Except.error e)) ∧
    Parse "a(b" = .error "could not parse `a(b`, error: alt must end with ')'" := by
  constructor
  · intro src
    cases h : Parse src with
    | ok re => exact Or.inl ⟨re, rfl⟩
    | error e => exact Or.inr ⟨e, rfl⟩
  · rfl

/-- C4 (amended): parsing a bare flag-only group `(?flags)` succeeds and
contributes one fresh no-op instruction (an iSplit with no outgoing
edges) to the program under construction: whenever term enters the
`(?` branch with a non-`P` follower and the flag loop ends at `)`, the
result state is the flag loop's state with exactly that one instruction
appended, and both handles of the term point at it. (The cleanup pass
may then remove the no-op again; see the counterexample.) -/
theorem term_flag_only (n : Nat) (s s1 : PState)
    (h1 : s.src.curr = ch '(')
    (h2 : ((rnext s).2).src.curr = ch '?')
    (h3 : ((rnext (rnext s).2).2).src.curr ≠ ch 'P')
    (hfl : flagLoop (((rnext (rnext s).2).2).src.s.length + 2) true ((rnext (rnext s).2).2)
       = .ok (.close, s1)) :
    (parserAt (n + 1)).term s =
      .ok ((s1.re.prog.length, s1.re.prog.length),
        { s1 with re := { s1.re with prog := s1.re.prog ++
            [⟨s1.re.prog.length, iSplit, none, none, bNone, .rfNone, -1, []⟩] } }) := by
  show (parserStep (parserAt n)).term s = _
  simp only [parserStep]
  rw [h1]
  norm_num [ch]
  rw [show ((rnext s).1) = (rnext s).2.src.curr from rfl, h2]
  simp only [ch] at h3
  rw [if_neg (by decide), if_neg (by decide), if_neg (by decide), if_pos (by norm_num [ch]),
    if_neg h3]
  rw [hfl]
  rfl

theorem term_flag_only_witness :
    (parserAt 1).term
      { re := { prog := [], start := -1, caps := 1 },
        src := { s := cps "(?i)", pos := 0 }, flags := 0 } =
      .ok ((0, 0),
        { re := { prog := [⟨0, iSplit, none, none, bNone, .rfNone, -1, []⟩],
                  start := -1, caps := 1 },
          src := { s := cps "(?i)", pos := 4 }, flags := 2199023255552 }) :=
  term_flag_only 0
    { re := { prog := [], start := -1, caps := 1 },
      src := { s := cps "(?i)", pos := 0 }, flags := 0 }
    { re := { prog := [], start := -1, caps := 1 },
      src := { s := cps "(?i)", pos := 4 }, flags := 2199023255552 }
    (by decide) (by decide) (by decide) rfl

/-- C4 (counterexample): for the pattern `(?i)`, the flag-only group
contributes its no-op instruction to the program under construction
(instruction 10 of the twelve pre-cleanup instructions, an iSplit), but
the cleanup pass removes it: the final compiled program is exactly the
eight instructions of the implicit `.*?(...).*?` frame, so the no-op is
not present as a node of the final program. -/
theorem flag_only_noop_removed_counterexample :
    ((parsePre "(?i)").map fun s => (s.re.prog.length, s.re.prog.map instr.mode)) =
      .ok (12, [iSplit, iIndexCap, iSplit, iRuneClass, iIndexCap, iMatch, iSplit, iRuneClass,
                iSplit, iSplit, iSplit, iSplit]) ∧
    Parse "(?i)" = .ok
      { prog :=
          [⟨0, iSplit, some 2, none, bNone, .rfNone, -1, []⟩,
           ⟨1, iIndexCap, some 4, none, bNone, .rfNone, 0, []⟩,
           ⟨2, iSplit, some 1, some 3, bNone, .rfNone, -1, []⟩,
           ⟨3, iRuneClass, some 2, none, bNone, .rfAny, -1, []⟩,
           ⟨4, iIndexCap, some 6, none, bNone, .rfNone, 1, []⟩,
           ⟨5, iMatch, none, none, bNone, .rfNone, -1, []⟩,
           ⟨6, iSplit, some 5, some 7, bNone, .rfNone, -1, []⟩,
           ⟨7, iRuneClass, some 6, none, bNone, .rfAny, -1, []⟩],
        start := 2, caps := 1 } :=
  ⟨rfl, rfl⟩

theorem progExt_refl (b : Nat) (p : List instr) : progExt b p p :=
  ⟨le_refl _, fun _ _ => rfl, fun i x _ hx =>
    ⟨Or.inr ⟨x, hx, rfl⟩, Or.inr ⟨x, hx, rfl⟩⟩⟩

theorem progExt_trans {b : Nat} {p q r : List instr}
    (h1 : progExt b p q) (h2 : progExt b q r) : progExt b p r := by
  obtain ⟨l1, u1, e1⟩ := h1
  obtain ⟨l2, u2, e2⟩ := h2
  refine ⟨le_trans l1 l2, fun i hi => (u2 i hi).trans (u1 i hi), ?_⟩
  intro i x hb hx
  obtain ⟨ho, ho1⟩ := e2 i x hb hx
  constructor
  · rcases ho with h | ⟨y, hy, hxy⟩
    · exact Or.inl h
    · rcases (e1 i y hb hy).1 with h | ⟨z, hz, hyz⟩
      · exact Or.inl (by rw [hxy]; exact h)
      · exact Or.inr ⟨z, hz, hxy.trans hyz⟩
  · rcases ho1 with h | ⟨y, hy, hxy⟩
    · exact Or.inl h
    · rcases (e1 i y hb hy).2 with h | ⟨z, hz, hyz⟩
      · exact Or.inl (by rw [hxy]; exact h)
      · exact Or.inr ⟨z, hz, hxy.trans hyz⟩

theorem pinstr_fst (s : PState) : (pinstr s).1 = s.re.prog.length := rfl

theorem pinstr_prog (s : PState) :
    (pinstr s).2.re.prog = s.re.prog ++
      [⟨s.re.prog.length, iSplit, none, none, bNone, .rfNone, -1, []⟩] := rfl

theorem pinstr_caps (s : PState) : (pinstr s).2.re.caps = s.re.caps := rfl

theorem pinstr_src (s : PState) : (pinstr s).2.src = s.src := rfl

theorem progExt_append_fresh (b : Nat) (p : List instr) (x : instr) (hbp : b ≤ p.length)
    (hx : x.out = none) (hx1 : x.out1 = none) : progExt b p (p ++ [x]) := by
  refine ⟨by simp, fun i hi => ?_, fun i y hb hy => ?_⟩
  · rw [List.get?_append (by omega)]
  · by_cases hip : i < p.length
    · rw [List.get?_append hip] at hy
      exact ⟨Or.inr ⟨y, hy, rfl⟩, Or.inr ⟨y, hy, rfl⟩⟩
    · have : i = p.length := by
        by_contra hne
        rw [List.get?_eq_none.mpr (by simp; omega)] at hy
        exact absurd hy (by simp)
      subst this
      rw [List.get?_append_right (le_refl _)] at hy
      simp only [Nat.sub_self, List.get?_cons_zero, Option.some.injEq] at hy
      subst hy
      constructor
      · exact Or.inl (by intro t ht; rw [hx] at ht; cases ht)
      · exact Or.inl (by intro t ht; rw [hx1] at ht; cases ht)

theorem progExt_pinstr (b : Nat) (s : PState) (hbp : b ≤ s.re.prog.length) :
    progExt b s.re.prog (pinstr s).2.re.prog := by
  rw [pinstr_prog]
  exact progExt_append_fresh b _ _ hbp rfl rfl

theorem progExt_listModify (b : Nat) (p : List instr) (u : Nat) (f : instr → instr)
    (hu : b ≤ u)
    (hf : ∀ x, ((f x).out = x.out ∨ edgeGe b (f x).out) ∧
               ((f x).out1 = x.out1 ∨ edgeGe b (f x).out1)) :
    progExt b p (listModify p u f) := by
  unfold listModify
  cases hg : p.get? u with
  | none => exact progExt_refl b p
  | some x =>
    refine ⟨by simp, fun i hi => ?_, fun i y hb hy => ?_⟩
    · rw [List.get?_set_ne _ _ (by omega)]
    · by_cases hiu : i = u
      · subst hiu
        rw [List.get?_set_eq_of_lt _ (List.get?_eq_some.mp hg).1] at hy
        simp only [Option.some.injEq] at hy
        subst hy
        obtain ⟨h1, h2⟩ := hf x
        constructor
        · rcases h1 with h | h
          · exact Or.inr ⟨x, hg, h⟩
          · exact Or.inl h
        · rcases h2 with h | h
          · exact Or.inr ⟨x, hg, h⟩
          · exact Or.inl h
      · rw [List.get?_set_ne _ _ (fun hc => hiu hc.symm)] at hy
        exact ⟨Or.inr ⟨y, hy, rfl⟩, Or.inr ⟨y, hy, rfl⟩⟩

theorem setMode_re (s : PState) (u : Nat) (m : instrMode) :
    (setMode s u m).re.prog = listModify s.re.prog u (fun x => { x with mode := m }) ∧
    (setMode s u m).re.caps = s.re.caps ∧ (setMode s u m).src = s.src := ⟨rfl, rfl, rfl⟩

theorem progExt_setMode (b : Nat) (s : PState) (u : Nat) (m : instrMode) (hu : b ≤ u) :
    progExt b s.re.prog (setMode s u m).re.prog :=
  progExt_listModify b _ u _ hu (fun x => ⟨Or.inl rfl, Or.inl rfl⟩)

theorem progExt_setRune (b : Nat) (s : PState) (u : Nat) (f : RuneFilter) (hu : b ≤ u) :
    progExt b s.re.prog (setRune s u f).re.prog :=
  progExt_listModify b _ u _ hu (fun x => ⟨Or.inl rfl, Or.inl rfl⟩)

theorem progExt_setLr (b : Nat) (s : PState) (u : Nat) (m : boundaryMode) (hu : b ≤ u) :
    progExt b s.re.prog (setLr s u m).re.prog :=
  progExt_listModify b _ u _ hu (fun x => ⟨Or.inl rfl, Or.inl rfl⟩)

theorem progExt_setCid (b : Nat) (s : PState) (u : Nat) (v : Int) (hu : b ≤ u) :
    progExt b s.re.prog (setCid s u v).re.prog :=
  progExt_listModify b _ u _ hu (fun x => ⟨Or.inl rfl, Or.inl rfl⟩)

theorem progExt_setCname (b : Nat) (s : PState) (u : Nat) (v : List Int) (hu : b ≤ u) :
    progExt b s.re.prog (setCname s u v).re.prog :=
  progExt_listModify b _ u _ hu (fun x => ⟨Or.inl rfl, Or.inl rfl⟩)

theorem progExt_setOutDirect (b : Nat) (s : PState) (u v : Nat) (hu : b ≤ u) (hv : b ≤ v) :
    progExt b s.re.prog (setOutDirect s u (some v)).re.prog :=
  progExt_listModify b _ u _ hu
    (fun x => ⟨Or.inr (fun t ht => by simp at ht; omega), Or.inl rfl⟩)

theorem progExt_setOut1Direct (b : Nat) (s : PState) (u v : Nat) (hu : b ≤ u) (hv : b ≤ v) :
    progExt b s.re.prog (setOut1Direct s u (some v)).re.prog :=
  progExt_listModify b _ u _ hu
    (fun x => ⟨Or.inl rfl, Or.inr (fun t ht => by simp at ht; omega)⟩)

theorem pout_ok (s : PState) (u v : Nat) (s' : PState) (h : pout s u v = .ok s') :
    (s' = setOutDirect s u (some v) ∨ s' = setOut1Direct s u (some v)) := by
  unfold pout at h
  split at h
  · cases h
  · split at h
    · simp only [Except.ok.injEq] at h
      exact Or.inl h.symm
    · split at h
      · simp only [Except.ok.injEq] at h
        exact Or.inr h.symm
      · cases h

theorem progExt_pout (b : Nat) (s : PState) (u v : Nat) (s' : PState)
    (hu : b ≤ u) (hv : b ≤ v) (h : pout s u v = .ok s') :
    progExt b s.re.prog s'.re.prog ∧ s'.re.prog.length = s.re.prog.length ∧
    s'.re.caps = s.re.caps ∧ s'.src = s.src ∧ s'.flags = s.flags := by
  rcases pout_ok s u v s' h with rfl | rfl
  · exact ⟨progExt_setOutDirect b s u v hu hv, listModify_length _ _ _, rfl, rfl, rfl⟩
  · exact ⟨progExt_setOut1Direct b s u v hu hv, listModify_length _ _ _, rfl, rfl, rfl⟩
